import Mathlib

/-!
Verification of the mealie-rag query-to-answer retrieval core.

This file gives a shallow embedding of the algorithmic core of the
repository and proves the specified properties about it:

* `evals/scripts/eval_core.py` — ingredient-category expansion,
  ground-truth filter synthesis, and retrieval-metric computation
  (precision@K, recall@K, capped recall@K, MRR, nDCG@K, hit rate);
* `src/mealierag/vectordb.py` — query-time filter synthesis from a
  `QueryExtraction` and the simple / RRF retrieval entry points;
* `src/mealierag/query_builder.py` — the LLM-assisted multi-query
  builder and its model-call count contract;
* `src/mealierag/models.py` — the `QueryExtraction` data model.

Python floats are modelled as real numbers (the metric formulas are
exact in ℝ), Python ints as ℤ / ℕ, numeric payload values as ℚ, and the
Python `set` of relevant IDs as a `Finset String`.  Qdrant request
objects are modelled structurally: a retrieval entry point returns the
request it would send to the index (the index itself is an external
collaborator).
-/

namespace MealieRag

/- ------------------------------------------------------------------
Retrieval metrics (eval_core.py)
------------------------------------------------------------------- -/

/-- Retrieval quality scores for a single query: the `RetrievalMetrics`
dataclass of `eval_core.py`. -/
structure RetrievalMetrics where
  precision : ℝ
  «recall» : ℝ
  recall_capped : ℝ
  mrr : ℝ
  ndcg : ℝ
  hit : Bool
  relevant_count : ℕ

/-- Discount weight of the 0-indexed position `i`: `1 / math.log2(i + 2)`
as it appears in `_calculate_ndcg`. -/
noncomputable def discount (i : ℕ) : ℝ := 1 / Real.logb 2 ((i : ℝ) + 2)

/-- The DCG sum of `_calculate_ndcg`: over the positions `i` of
`retrieved_ids[:k]` whose ID is relevant, add `1 / log2(i + 2)`. -/
noncomputable def dcg (retrieved_ids : List String) (relevant_ids : Finset String)
    (k : ℕ) : ℝ :=
  ∑ i ∈ Finset.range (min k retrieved_ids.length),
    if retrieved_ids.getD i "" ∈ relevant_ids then discount i else 0

/-- The IDCG sum of `_calculate_ndcg`: the same discounts over the ideal
ordering of `min(len(relevant_ids), k)` relevant items placed first. -/
noncomputable def idcg (relevant_ids : Finset String) (k : ℕ) : ℝ :=
  ∑ i ∈ Finset.range (min relevant_ids.card k), discount i

/-- Embedding of `_calculate_ndcg(retrieved_ids, relevant_ids, k)`:
`dcg / idcg if idcg > 0 else 0.0`. -/
noncomputable def calculate_ndcg (retrieved_ids : List String)
    (relevant_ids : Finset String) (k : ℕ) : ℝ :=
  if 0 < idcg relevant_ids k then
    dcg retrieved_ids relevant_ids k / idcg relevant_ids k
  else 0

/-- The MRR loop of `compute_retrieval_metrics`: walk `retrieved_ids`
with a running 0-indexed position `i`; at the first relevant ID return
`1 / (i + 1)`; return `0.0` if no retrieved ID is relevant. -/
noncomputable def mrrAux (relevant_ids : Finset String) :
    List String → ℕ → ℝ
  | [], _ => 0
  | rid :: rest, i =>
    if rid ∈ relevant_ids then 1 / ((i : ℝ) + 1)
    else mrrAux relevant_ids rest (i + 1)

/-- Embedding of `compute_retrieval_metrics(retrieved_ids, relevant_ids)` from
`eval_core.py`, with `k = len(retrieved_ids)` and `relevant_retrieved`
the number of positions of `retrieved_ids` holding a relevant ID. -/
noncomputable def compute_retrieval_metrics (retrieved_ids : List String)
    (relevant_ids : Finset String) : RetrievalMetrics :=
  let k := retrieved_ids.length
  let relevant_retrieved :=
    retrieved_ids.countP (fun rid => decide (rid ∈ relevant_ids))
  { precision := if 0 < k then (relevant_retrieved : ℝ) / k else 0
    «recall» :=
      if relevant_ids.Nonempty then (relevant_retrieved : ℝ) / relevant_ids.card
      else 0
    recall_capped :=
      if relevant_ids.Nonempty ∧ 0 < k then
        (relevant_retrieved : ℝ) / (min k relevant_ids.card : ℕ)
      else 0
    mrr := mrrAux relevant_ids retrieved_ids 0
    ndcg := calculate_ndcg retrieved_ids relevant_ids k
    hit := retrieved_ids.any (fun rid => decide (rid ∈ relevant_ids))
    relevant_count := relevant_ids.card }

/- ------------------------------------------------------------------
Filter predicate tree (the qdrant filter shapes used by the core)
------------------------------------------------------------------- -/

/-- A payload value of the evaluation `expected_properties` map: a list
of strings, a number, or a boolean. -/
inductive ExpVal where
  | strs (items : List String)
  | num (q : ℚ)
  | boolean (b : Bool)
deriving DecidableEq

/-- The numeric bounds of a `qdrant_models.Range` as used by the core
(`gte`, `lt`, `lte`; `gt` is never used). -/
structure RangeSpec where
  gte : Option ℚ := none
  lt : Option ℚ := none
  lte : Option ℚ := none
deriving DecidableEq

/-- The match part of a `qdrant_models.FieldCondition`: `MatchText`,
`MatchValue`, or `MatchAny`. -/
inductive MatchKind where
  | text (t : String)
  | matchValue (v : ExpVal)
  | any (vals : List String)
deriving DecidableEq

/-- One condition of a qdrant filter: a field condition with a match, a
field condition with a range, or a nested `Filter(should=[...])` used as
a condition (the OR sub-clause of a required ingredient). -/
inductive Condition where
  | field (key : String) (m : MatchKind)
  | range (key : String) (r : RangeSpec)
  | shouldFilter (conds : List Condition)

/-- A top-level `qdrant_models.Filter` as built by the core: the `must`
and `must_not` condition groups (absent groups are `none`). -/
structure Filter where
  must : Option (List Condition) := none
  must_not : Option (List Condition) := none

/- ------------------------------------------------------------------
QueryExtraction (models.py) and query-time filter synthesis (vectordb.py)
------------------------------------------------------------------- -/

/-- The `QueryExtraction` pydantic model of `models.py`: expanded
queries plus the optional negative-ingredient / rating-bound
constraints.  These five fields are the only fields the model
declares. -/
structure QueryExtraction where
  expanded_queries : List String
  negative_ingredients : Option (List String) := none
  other_negative_constraints : Option (List String) := none
  min_rating : Option ℤ := none
  max_rating : Option ℤ := none
deriving DecidableEq

/-- Embedding of `_build_filters(query_extraction)` from `vectordb.py`: one must-not
text-match leaf per negative ingredient, one must range leaf on
`rating` (`gte=min_rating`, `lt=max_rating`) when either bound is set,
and `None` when no condition was produced. -/
def build_filters : Option QueryExtraction → Option Filter
  | none => none
  | some qe =>
    let must_not_conditions :=
      (qe.negative_ingredients.getD []).map fun ing =>
        Condition.field "normalized_ingredients" (MatchKind.text ing)
    let must_conditions :=
      if qe.min_rating.isSome || qe.max_rating.isSome then
        [Condition.range "rating"
          { gte := qe.min_rating.map fun v : ℤ => (v : ℚ),
            lt := qe.max_rating.map fun v : ℤ => (v : ℚ),
            lte := none }]
      else []
    if must_not_conditions.isEmpty && must_conditions.isEmpty then none
    else some
      { must := if must_conditions.isEmpty then none else some must_conditions,
        must_not :=
          if must_not_conditions.isEmpty then none else some must_not_conditions }

/-- A condition is the `rating` range leaf shape of `_build_filters`. -/
def isRatingRangeCondition : Condition → Bool
  | Condition.range "rating" _ => true
  | _ => false

/-- A condition is the negative-ingredient text-match leaf shape of
`_build_filters`. -/
def isNegativeIngredientCondition : Condition → Bool
  | Condition.field "normalized_ingredients" (MatchKind.text _) => true
  | _ => false

/- ------------------------------------------------------------------
Ground-truth filter synthesis (eval_core.py)
------------------------------------------------------------------- -/

/-- The static `INGREDIENT_CATEGORIES` table of `eval_core.py`. -/
def INGREDIENT_CATEGORIES : List (String × List String) :=
  [("meat",
    ["chicken", "beef", "pork", "lamb", "steak", "turkey", "salami", "ham",
      "bacon", "sausage", "duck", "mince"]),
   ("fish",
    ["salmon", "tuna", "cod", "hake", "bass", "trout", "sardine", "mackerel"]),
   ("seafood",
    ["shrimp", "prawn", "crab", "lobster", "mussel", "clam", "squid",
      "octopus"]),
   ("vegetable",
    ["carrot", "leek", "onion", "pepper", "broccoli", "cauliflower", "spinach",
      "cabbage", "zucchini", "aubergine", "eggplant", "potato", "tomato",
      "cucumber", "lettuce", "pea", "bean"])]

/-- Embedding of `_expand_ingredient(name)`: the lowercased name followed by its
category synonyms when the lowercased name is a category key. -/
def expand_ingredient (name : String) : List String :=
  name.toLower :: ((INGREDIENT_CATEGORIES.lookup name.toLower).getD [])

/-- The list-of-strings payload of an `ExpVal` (the shapes the loop of
`build_ground_truth_filters` iterates over). -/
def ExpVal.asStrs : ExpVal → List String
  | .strs items => items
  | _ => []

/-- The numeric payload of an `ExpVal` (the shapes passed to a
`qdrant_models.Range` bound). -/
def ExpVal.asNum : ExpVal → Option ℚ
  | .num q => some q
  | _ => none

/-- The leaves contributed to `(must, must_not)` by one `key: value`
entry of the loop body of `build_ground_truth_filters`.  Values whose
shape differs from what the corresponding branch consumes (which would
be off the dataset contract) contribute nothing. -/
def entry_conditions (key : String) (value : ExpVal) :
    List Condition × List Condition :=
  if key = "must_have_ingredients" then
    (value.asStrs.map fun req =>
      Condition.shouldFilter ((expand_ingredient req).map fun c =>
        Condition.field "normalized_ingredients" (MatchKind.text c)), [])
  else if key = "must_not_have_ingredients" then
    ([], value.asStrs.flatMap fun forb =>
      (expand_ingredient forb).map fun c =>
        Condition.field "normalized_ingredients" (MatchKind.text c))
  else if key = "is_healthy" then
    ([Condition.field "is_healthy" (MatchKind.matchValue value)], [])
  else if key = "min_rating" then
    ([Condition.range "rating" { gte := value.asNum }], [])
  else if key = "max_total_time_minutes" then
    ([Condition.range "total_time_minutes" { lte := value.asNum }], [])
  else if key = "max_ingredient_count" then
    ([Condition.range "ingredient_count" { lte := value.asNum }], [])
  else if key = "tags" then
    ([], [])
  else if key = "tools" then
    ([Condition.field "tools" (MatchKind.any (value.asStrs.map String.toLower))],
      [])
  else if key = "method" then
    ([Condition.field "method" (MatchKind.any (value.asStrs.map String.toLower))],
      [])
  else if key = "recipeCategory" then
    ([Condition.field "category"
        (MatchKind.any (value.asStrs.map String.toLower))], [])
  else if key = "limit" then
    ([], [])
  else
    ([], [])

/-- The keys the `elif` chain of `build_ground_truth_filters`
explicitly recognizes (including the intentionally inert `tags` and
`limit`). -/
def HANDLED_KEYS : List String :=
  ["must_have_ingredients", "must_not_have_ingredients", "is_healthy",
    "min_rating", "max_total_time_minutes", "max_ingredient_count", "tags",
    "tools", "method", "recipeCategory", "limit"]

/-- Embedding of `build_ground_truth_filters(expected)` from `eval_core.py`: `None`
for the empty map; otherwise a filter whose `must` / `must_not` groups
concatenate the per-entry leaves in iteration order, with an empty
group stored as `None`. -/
def build_ground_truth_filters (expected : List (String × ExpVal)) :
    Option Filter :=
  if expected.isEmpty then none
  else
    let must := expected.flatMap fun kv => (entry_conditions kv.1 kv.2).1
    let must_not := expected.flatMap fun kv => (entry_conditions kv.1 kv.2).2
    some
      { must := if must.isEmpty then none else some must,
        must_not := if must_not.isEmpty then none else some must_not }

/- ------------------------------------------------------------------
Fusion retrieval entry points (vectordb.py)
------------------------------------------------------------------- -/

/-- The request `retrieve_results_simple` sends to the index. -/
structure SimpleQueryRequest where
  collection_name : String
  query : List ℚ
  limit : ℕ
  query_filter : Option Filter

/-- One `qdrant_models.Prefetch` sub-query of the RRF request. -/
structure Prefetch where
  query : List ℚ
  limit : ℕ
  filter : Option Filter

/-- The request `retrieve_results_rrf` sends to the index: one prefetch
per query vector and a `FusionQuery(fusion=RRF)` top query. -/
structure RRFQueryRequest where
  collection_name : String
  prefetch : List Prefetch
  limit : ℕ

/-- Embedding of `retrieve_results_simple(query_vectors, client, collection_name, k,
query_extraction)`: validates that exactly one query vector was given
(raising a `ValueError` naming the actual count otherwise) and issues a
single filtered nearest-neighbour query. -/
def retrieve_results_simple (query_vectors : List (List ℚ))
    (collection_name : String) (k : ℕ)
    (query_extraction : Option QueryExtraction) :
    Except String SimpleQueryRequest :=
  if query_vectors.length ≠ 1 then
    Except.error
      ("Simple retrieval supports exactly one query vector, got " ++
        toString query_vectors.length)
  else
    Except.ok
      { collection_name := collection_name
        query := query_vectors.getD 0 []
        limit := k
        query_filter := build_filters query_extraction }

/-- Embedding of `retrieve_results_rrf(query_vectors, client, collection_name, k,
query_extraction)`: no validation of the vector count; one prefetch per
query vector, each carrying the shared synthesized filter and limit
`k`, fused by RRF with top-level limit `k`. -/
def retrieve_results_rrf (query_vectors : List (List ℚ))
    (collection_name : String) (k : ℕ)
    (query_extraction : Option QueryExtraction) :
    Except String RRFQueryRequest :=
  Except.ok
    { collection_name := collection_name
      prefetch := query_vectors.map fun query_vector =>
        { query := query_vector
          limit := k
          filter := build_filters query_extraction }
      limit := k }

/- ------------------------------------------------------------------
Multi-query builder (query_builder.py)
------------------------------------------------------------------- -/

/-- Embedding of `MultiQueryQueryBuilder.build(user_input)` with the chat model
abstracted as a deterministic oracle: `expand_response` is the
structured output the model returns for the expansion call and
`brainstorm_response` the rewrite the model returns per expanded query.
Returns the final `QueryExtraction` together with the number of
`llm_client.chat` calls made. -/
def multi_query_build (enable_expand : Bool)
    (enable_culinary_brainstorm : Bool) (expand_response : QueryExtraction)
    (brainstorm_response : String → String) (user_input : String) :
    QueryExtraction × ℕ :=
  let step1 : QueryExtraction × ℕ :=
    if enable_expand then (expand_response, 1)
    else ({ expanded_queries := [user_input] }, 0)
  if enable_culinary_brainstorm then
    ({ step1.1 with
        expanded_queries := step1.1.expanded_queries.map brainstorm_response },
      step1.2 + step1.1.expanded_queries.length)
  else step1

/- ------------------------------------------------------------------
Helper lemmas about the nDCG discount and the MRR loop
------------------------------------------------------------------- -/

lemma one_le_logb_two_add (i : ℕ) : 1 ≤ Real.logb 2 ((i : ℝ) + 2) := by
  have h2 : (1 : ℝ) < 2 := one_lt_two
  calc (1 : ℝ) = Real.logb 2 2 := (Real.logb_self_eq_one h2).symm
    _ ≤ Real.logb 2 ((i : ℝ) + 2) := by
        apply Real.logb_le_logb_of_le h2 (by norm_num)
        have : (0 : ℝ) ≤ (i : ℝ) := Nat.cast_nonneg i
        linarith

lemma logb_two_add_pos (i : ℕ) : 0 < Real.logb 2 ((i : ℝ) + 2) :=
  lt_of_lt_of_le zero_lt_one (one_le_logb_two_add i)

lemma discount_pos (i : ℕ) : 0 < discount i :=
  one_div_pos.mpr (logb_two_add_pos i)

lemma discount_antitone {i j : ℕ} (h : i ≤ j) : discount j ≤ discount i := by
  unfold discount
  apply one_div_le_one_div_of_le (logb_two_add_pos i)
  apply Real.logb_le_logb_of_le one_lt_two (by positivity)
  have : (i : ℝ) ≤ (j : ℝ) := Nat.cast_le.mpr h
  linarith

/-- A sum of an antitone non-negative weight over any finite set of
naturals is at most the sum of the same weight over the initial segment
of the same size. -/
lemma sum_le_sum_range_card (f : ℕ → ℝ) (hmono : ∀ i j, i ≤ j → f j ≤ f i) :
    ∀ (n : ℕ) (S : Finset ℕ), S ⊆ Finset.range n →
      ∑ i ∈ S, f i ≤ ∑ i ∈ Finset.range S.card, f i := by
  intro n
  induction n with
  | zero =>
    intro S hS
    have hS0 : S = ∅ := Finset.subset_empty.mp (by simpa using hS)
    subst hS0; simp
  | succ n ih =>
    intro S hS
    by_cases hn : n ∈ S
    · have hsub : S.erase n ⊆ Finset.range n := by
        intro x hx
        have hx1 : x ≠ n := Finset.ne_of_mem_erase hx
        have hx2 : x < n + 1 := Finset.mem_range.mp (hS (Finset.mem_of_mem_erase hx))
        exact Finset.mem_range.mpr (by omega)
      have hcard : (S.erase n).card + 1 = S.card := by
        rw [Finset.card_erase_of_mem hn]
        have hpos' : 0 < S.card := Finset.card_pos.mpr ⟨n, hn⟩
        omega
      have hle : (S.erase n).card ≤ n := by
        have := Finset.card_le_card hsub
        simpa using this
      calc ∑ i ∈ S, f i = f n + ∑ i ∈ S.erase n, f i :=
            (Finset.add_sum_erase S f hn).symm
        _ ≤ f n + ∑ i ∈ Finset.range (S.erase n).card, f i := by
            have := ih (S.erase n) hsub; linarith
        _ ≤ f (S.erase n).card + ∑ i ∈ Finset.range (S.erase n).card, f i := by
            have := hmono _ _ hle; linarith
        _ = ∑ i ∈ Finset.range ((S.erase n).card + 1), f i := by
            rw [Finset.sum_range_succ]; ring
        _ = ∑ i ∈ Finset.range S.card, f i := by rw [hcard]
    · have hsub : S ⊆ Finset.range n := by
        intro x hx
        have hx1 : x < n + 1 := Finset.mem_range.mp (hS hx)
        have hx2 : x ≠ n := fun h => hn (h ▸ hx)
        exact Finset.mem_range.mpr (by omega)
      exact ih S hsub

lemma dcg_nonneg (r : List String) (s : Finset String) (k : ℕ) : 0 ≤ dcg r s k := by
  apply Finset.sum_nonneg
  intro i _
  split
  · exact (discount_pos i).le
  · exact le_refl 0

lemma idcg_nonneg (s : Finset String) (k : ℕ) : 0 ≤ idcg s k :=
  Finset.sum_nonneg fun i _ => (discount_pos i).le

/-- On a duplicate-free retrieved list the DCG is dominated by the IDCG:
the hit positions form a set of size at most `min |relevant| k` and the
discount weights are antitone. -/
lemma dcg_le_idcg {r : List String} {s : Finset String} (hnd : r.Nodup) :
    dcg r s r.length ≤ idcg s r.length := by
  rw [dcg, idcg, Nat.min_self, ← Finset.sum_filter]
  have hSsub : (Finset.range r.length).filter (fun i => r.getD i "" ∈ s) ⊆
      Finset.range r.length := Finset.filter_subset _ _
  have hcard_n : ((Finset.range r.length).filter (fun i => r.getD i "" ∈ s)).card ≤
      r.length := by
    simpa using Finset.card_le_card hSsub
  have hcard_s : ((Finset.range r.length).filter (fun i => r.getD i "" ∈ s)).card ≤
      s.card := by
    apply Finset.card_le_card_of_injOn (fun i => r.getD i "")
    · intro i hi
      exact (Finset.mem_filter.mp hi).2
    · intro i hi j hj hij
      have hi' : i < r.length := Finset.mem_range.mp (hSsub hi)
      have hj' : j < r.length := Finset.mem_range.mp (hSsub hj)
      simp only at hij
      rw [List.getD_eq_getElem r _ hi', List.getD_eq_getElem r _ hj'] at hij
      exact hnd.getElem_inj_iff.mp hij
  calc ∑ i ∈ (Finset.range r.length).filter (fun i => r.getD i "" ∈ s), discount i
      ≤ ∑ i ∈ Finset.range
          ((Finset.range r.length).filter (fun i => r.getD i "" ∈ s)).card,
          discount i :=
        sum_le_sum_range_card discount (fun _ _ h => discount_antitone h)
          r.length _ hSsub
    _ ≤ ∑ i ∈ Finset.range (min s.card r.length), discount i := by
        apply Finset.sum_le_sum_of_subset_of_nonneg
        · exact Finset.range_subset.mpr (le_min hcard_s hcard_n)
        · exact fun i _ _ => (discount_pos i).le

lemma mrrAux_nonneg (s : Finset String) :
    ∀ (l : List String) (i : ℕ), 0 ≤ mrrAux s l i
  | [], _ => le_refl 0
  | rid :: rest, i => by
    rw [mrrAux]
    split
    · positivity
    · exact mrrAux_nonneg s rest (i + 1)

lemma mrrAux_le_one (s : Finset String) :
    ∀ (l : List String) (i : ℕ), mrrAux s l i ≤ 1
  | [], _ => by rw [mrrAux]; norm_num
  | rid :: rest, i => by
    rw [mrrAux]
    split
    · rw [div_le_one (by positivity)]
      have : (0 : ℝ) ≤ (i : ℝ) := Nat.cast_nonneg i
      linarith
    · exact mrrAux_le_one s rest (i + 1)

/-- On a duplicate-free list the number of relevant positions is at most
the size of the relevant set. -/
lemma countP_mem_le_card {r : List String} {s : Finset String} (hnd : r.Nodup) :
    r.countP (fun rid => decide (rid ∈ s)) ≤ s.card := by
  rw [List.countP_eq_length_filter]
  have hnd' : (r.filter (fun rid => decide (rid ∈ s))).Nodup := hnd.filter _
  have hsub : (r.filter (fun rid => decide (rid ∈ s))).toFinset ⊆ s := by
    intro x hx
    have hx1 := List.mem_toFinset.mp hx
    have hx2 := List.mem_filter.mp hx1
    simpa using hx2.2
  calc (r.filter (fun rid => decide (rid ∈ s))).length
      = (r.filter (fun rid => decide (rid ∈ s))).toFinset.card :=
        (List.toFinset_card_of_nodup hnd').symm
    _ ≤ s.card := Finset.card_le_card hsub

lemma mrrAux_no_hit (s : Finset String) :
    ∀ (l : List String), (∀ x ∈ l, x ∉ s) → ∀ i, mrrAux s l i = 0
  | [], _, _ => by rw [mrrAux]
  | a :: t, h, i => by
    rw [mrrAux, if_neg (h a (List.mem_cons_self a t))]
    exact mrrAux_no_hit s t (fun x hx => h x (List.mem_cons_of_mem a hx)) (i + 1)

lemma mrrAux_first_hit (s : Finset String) :
    ∀ (l : List String) (b i : ℕ) (hi : i < l.length),
      l.get ⟨i, hi⟩ ∈ s →
      (∀ (j : ℕ) (hj : j < l.length), j < i → l.get ⟨j, hj⟩ ∉ s) →
      mrrAux s l b = 1 / ((b : ℝ) + (i : ℝ) + 1)
  | [], _, i, hi => by simp at hi
  | a :: t, b, i, hi => fun hhit hmiss => by
    rw [mrrAux]
    by_cases ha : a ∈ s
    · rw [if_pos ha]
      have hi0 : i = 0 := by
        by_contra h0
        exact (hmiss 0 (by simp) (Nat.pos_of_ne_zero h0)) (by simpa using ha)
      subst hi0
      norm_num
    · rw [if_neg ha]
      have hi0 : i ≠ 0 := by
        intro h0
        subst h0
        exact ha (by simpa using hhit)
      obtain ⟨i', rfl⟩ : ∃ i', i = i' + 1 := ⟨i - 1, by omega⟩
      have hi' : i' < t.length := by
        have := hi
        simp only [List.length_cons] at this
        omega
      have hhit' : t.get ⟨i', hi'⟩ ∈ s := by simpa using hhit
      have hmiss' : ∀ (j : ℕ) (hj : j < t.length), j < i' → t.get ⟨j, hj⟩ ∉ s := by
        intro j hj hji
        have hj1 : j + 1 < (a :: t).length := by
          simp only [List.length_cons]
          omega
        have := hmiss (j + 1) hj1 (by omega)
        simpa using this
      have := mrrAux_first_hit s t (b + 1) i' hi' hhit' hmiss'
      rw [this]
      push_cast
      ring_nf

lemma option_all_ite (c : Prop) [Decidable c] (x : Filter)
    (p : Filter → Bool) (hx : p x = true) :
    ((if c then none else some x).all p) = true := by
  split
  · rfl
  · exact hx

lemma entry_conditions_must_have (v : ExpVal) :
    entry_conditions "must_have_ingredients" v =
      (v.asStrs.map fun req =>
        Condition.shouldFilter ((expand_ingredient req).map fun c =>
          Condition.field "normalized_ingredients" (MatchKind.text c)), []) := by
  rw [entry_conditions, if_pos rfl]

lemma entry_conditions_must_not_have (v : ExpVal) :
    entry_conditions "must_not_have_ingredients" v =
      ([], v.asStrs.flatMap fun forb =>
        (expand_ingredient forb).map fun c =>
          Condition.field "normalized_ingredients" (MatchKind.text c)) := by
  rw [entry_conditions, if_neg (by decide), if_pos rfl]

/- ------------------------------------------------------------------
C1 — ranges of the retrieval metric fields
------------------------------------------------------------------- -/

/-- C1, counterexample: the claim quantifies over retrieved lists with
duplicate IDs, but on `retrieved = ["a", "a"]`, `relevant = {"a"}` the
code counts the duplicate twice and returns `recall = 2 > 1`, so the
recall field does not lie in `[0, 1]` for every retrieved list. -/
theorem recall_exceeds_one_on_duplicate_ids :
    1 < (compute_retrieval_metrics ["a", "a"] ({"a"} : Finset String)).recall := by
  norm_num [compute_retrieval_metrics]

/-- C1, amended: for every retrieved list and relevant set, `precision`
and `mrr` lie in `[0, 1]`, `recall`, `recall_capped` and `ndcg` are
non-negative, and `relevant_count` equals the size of the relevant set;
when the retrieved list is duplicate-free, `recall`, `recall_capped` and
`ndcg` also lie in `[0, 1]` (`hit` is a boolean and `relevant_count` a
non-negative integer by construction of the result). -/
theorem retrieval_metrics_bounds (r : List String) (s : Finset String) :
    (0 ≤ (compute_retrieval_metrics r s).precision ∧
      (compute_retrieval_metrics r s).precision ≤ 1) ∧
    (0 ≤ (compute_retrieval_metrics r s).mrr ∧
      (compute_retrieval_metrics r s).mrr ≤ 1) ∧
    (0 ≤ (compute_retrieval_metrics r s).recall ∧
      0 ≤ (compute_retrieval_metrics r s).recall_capped ∧
      0 ≤ (compute_retrieval_metrics r s).ndcg) ∧
    (compute_retrieval_metrics r s).relevant_count = s.card ∧
    (r.Nodup →
      (compute_retrieval_metrics r s).recall ≤ 1 ∧
      (compute_retrieval_metrics r s).recall_capped ≤ 1 ∧
      (compute_retrieval_metrics r s).ndcg ≤ 1) := by
  have hm_len : r.countP (fun rid => decide (rid ∈ s)) ≤ r.length :=
    List.countP_le_length _
  simp only [compute_retrieval_metrics]
  refine ⟨⟨?_, ?_⟩, ⟨?_, ?_⟩, ⟨?_, ?_, ?_⟩, trivial, ?_⟩
  · split
    · positivity
    · exact le_refl 0
  · split
    · rename_i hk
      rw [div_le_one (by exact_mod_cast hk)]
      exact_mod_cast hm_len
    · exact zero_le_one
  · exact mrrAux_nonneg s r 0
  · exact mrrAux_le_one s r 0
  · split
    · positivity
    · exact le_refl 0
  · split
    · positivity
    · exact le_refl 0
  · rw [calculate_ndcg]
    split
    · rename_i hpos
      exact div_nonneg (dcg_nonneg r s _) (idcg_nonneg s _)
    · exact le_refl 0
  · intro hnd
    have hm_card : r.countP (fun rid => decide (rid ∈ s)) ≤ s.card :=
      countP_mem_le_card hnd
    refine ⟨?_, ?_, ?_⟩
    · split
      · rename_i hne
        have hcard : 0 < s.card := Finset.card_pos.mpr hne
        rw [div_le_one (by exact_mod_cast hcard)]
        exact_mod_cast hm_card
      · exact zero_le_one
    · split
      · rename_i hc
        have hmin : 0 < min r.length s.card :=
          lt_min hc.2 (Finset.card_pos.mpr hc.1)
        rw [div_le_one (by exact_mod_cast hmin)]
        exact_mod_cast le_min hm_len hm_card
      · exact zero_le_one
    · rw [calculate_ndcg]
      split
      · rename_i hpos
        rw [div_le_one hpos]
        exact dcg_le_idcg hnd
      · exact zero_le_one

/-- Witness for C1's amended theorem at a concrete duplicate-free
input. -/
theorem retrieval_metrics_bounds_witness :
    List.Nodup ["a", "b"] ∧
    (0 ≤ (compute_retrieval_metrics ["a", "b"] ({"a"} : Finset String)).ndcg ∧
      (compute_retrieval_metrics ["a", "b"] ({"a"} : Finset String)).ndcg ≤ 1) ∧
    (0 ≤ (compute_retrieval_metrics ["a", "b"] ({"a"} : Finset String)).precision ∧
      (compute_retrieval_metrics ["a", "b"] ({"a"} : Finset String)).precision ≤ 1) := by
  have h := retrieval_metrics_bounds ["a", "b"] ({"a"} : Finset String)
  have hnd : List.Nodup ["a", "b"] := by decide
  exact ⟨hnd, ⟨(h.2.2.1).2.2, (h.2.2.2.2 hnd).2.2⟩, h.1⟩

/- ------------------------------------------------------------------
C5 — perfect retrieval scores 1.0 everywhere
------------------------------------------------------------------- -/

/-- C5: when the non-empty retrieved list is an enumeration of the
relevant set (duplicate-free and covering it exactly), every metric is
1.0 and `hit` is true. -/
theorem perfect_retrieval_metrics (r : List String) (s : Finset String)
    (hne : r ≠ []) (hnd : r.Nodup) (henum : r.toFinset = s) :
    (compute_retrieval_metrics r s).precision = 1 ∧
    (compute_retrieval_metrics r s).recall = 1 ∧
    (compute_retrieval_metrics r s).recall_capped = 1 ∧
    (compute_retrieval_metrics r s).mrr = 1 ∧
    (compute_retrieval_metrics r s).ndcg = 1 ∧
    (compute_retrieval_metrics r s).hit = true := by
  have hmem : ∀ x ∈ r, x ∈ s := fun x hx => henum ▸ List.mem_toFinset.mpr hx
  have hlen : 0 < r.length := List.length_pos.mpr hne
  have hlenR : (0 : ℝ) < (r.length : ℝ) := by exact_mod_cast hlen
  have hcount : r.countP (fun rid => decide (rid ∈ s)) = r.length :=
    List.countP_eq_length.mpr (fun a ha => by simpa using hmem a ha)
  have hcard : s.card = r.length := by
    rw [← henum, List.toFinset_card_of_nodup hnd]
  have hsne : s.Nonempty := by
    obtain ⟨a, t, rfl⟩ : ∃ a t, r = a :: t := by
      cases r with
      | nil => exact absurd rfl hne
      | cons a t => exact ⟨a, t, rfl⟩
    exact ⟨a, hmem a (List.mem_cons_self a t)⟩
  have hdcg : dcg r s r.length = idcg s r.length := by
    rw [dcg, idcg, Nat.min_self, hcard, Nat.min_self]
    apply Finset.sum_congr rfl
    intro i hi
    have hi' : i < r.length := Finset.mem_range.mp hi
    rw [if_pos]
    rw [List.getD_eq_getElem r _ hi']
    exact hmem _ (List.getElem_mem hi')
  have hipos : 0 < idcg s r.length := by
    rw [idcg, hcard, Nat.min_self]
    apply Finset.sum_pos (fun i _ => discount_pos i)
    exact Finset.nonempty_range_iff.mpr (Nat.pos_iff_ne_zero.mp hlen)
  simp only [compute_retrieval_metrics]
  refine ⟨?_, ?_, ?_, ?_, ?_, ?_⟩
  · rw [if_pos hlen, hcount, div_self (ne_of_gt hlenR)]
  · rw [if_pos hsne, hcount, hcard, div_self (ne_of_gt hlenR)]
  · rw [if_pos ⟨hsne, hlen⟩, hcount, hcard, Nat.min_self,
      div_self (ne_of_gt hlenR)]
  · obtain ⟨a, t, rfl⟩ : ∃ a t, r = a :: t := by
      cases r with
      | nil => exact absurd rfl hne
      | cons a t => exact ⟨a, t, rfl⟩
    rw [mrrAux, if_pos (hmem a (List.mem_cons_self a t))]
    norm_num
  · rw [calculate_ndcg, if_pos hipos, hdcg, div_self (ne_of_gt hipos)]
  · obtain ⟨a, t, rfl⟩ : ∃ a t, r = a :: t := by
      cases r with
      | nil => exact absurd rfl hne
      | cons a t => exact ⟨a, t, rfl⟩
    simp only [List.any_cons, Bool.or_eq_true, decide_eq_true_eq]
    exact Or.inl (hmem a (List.mem_cons_self a t))

/-- Witness for C5 at the concrete enumeration `["a"]` of `{"a"}`. -/
theorem perfect_retrieval_metrics_witness :
    (compute_retrieval_metrics ["a"] ({"a"} : Finset String)).precision = 1 ∧
    (compute_retrieval_metrics ["a"] ({"a"} : Finset String)).ndcg = 1 ∧
    (compute_retrieval_metrics ["a"] ({"a"} : Finset String)).hit = true := by
  have h := perfect_retrieval_metrics ["a"] ({"a"} : Finset String)
    (by decide) (by decide) (by decide)
  exact ⟨h.1, h.2.2.2.2.1, h.2.2.2.2.2⟩

/- ------------------------------------------------------------------
C6 — capped recall dominates recall when |relevant| > K
------------------------------------------------------------------- -/

/-- C6: whenever the relevant set is strictly larger than the retrieved
list, the capped recall is at least the plain recall. -/
theorem recall_capped_ge_recall (r : List String) (s : Finset String)
    (h : r.length < s.card) :
    (compute_retrieval_metrics r s).recall ≤
      (compute_retrieval_metrics r s).recall_capped := by
  have hsne : s.Nonempty := Finset.card_pos.mp (lt_of_le_of_lt (Nat.zero_le _) h)
  simp only [compute_retrieval_metrics]
  by_cases hk : 0 < r.length
  · rw [if_pos hsne, if_pos ⟨hsne, hk⟩, min_eq_left h.le]
    have h1 : (0 : ℝ) ≤ (r.countP (fun rid => decide (rid ∈ s)) : ℝ) :=
      Nat.cast_nonneg _
    have h2 : (0 : ℝ) < (r.length : ℝ) := by exact_mod_cast hk
    have h3 : (r.length : ℝ) ≤ (s.card : ℝ) := by exact_mod_cast h.le
    gcongr
  · have hk0 : r = [] := List.length_eq_zero.mp (Nat.eq_zero_of_not_pos hk)
    subst hk0
    simp

/-- Witness for C6 at `retrieved = ["a"]`, `relevant = {"a", "b"}`. -/
theorem recall_capped_ge_recall_witness :
    (["a"] : List String).length < ({"a", "b"} : Finset String).card ∧
    (compute_retrieval_metrics ["a"] ({"a", "b"} : Finset String)).recall ≤
      (compute_retrieval_metrics ["a"] ({"a", "b"} : Finset String)).recall_capped :=
  ⟨by decide, recall_capped_ge_recall ["a"] {"a", "b"} (by decide)⟩

/- ------------------------------------------------------------------
C7 — MRR is the reciprocal of the 1-indexed first-hit rank
------------------------------------------------------------------- -/

/-- C7, counterexample: on `retrieved = ["a"]`, `relevant = {"a"}` the
first relevant hit has 1-indexed rank 1, the code returns `mrr = 1`,
and the claimed value `1/(rank+1) = 1/2` differs from it. -/
theorem mrr_not_one_over_rank_plus_one :
    (compute_retrieval_metrics ["a"] ({"a"} : Finset String)).mrr = 1 ∧
    (1 : ℝ) / (1 + 1) ≠ 1 := by
  constructor
  · norm_num [compute_retrieval_metrics, mrrAux]
  · norm_num

/-- C7, amended: `mrr` is `1/(i+1)` for `i` the 0-indexed position of
the first relevant hit — equivalently the reciprocal `1/rank` of the
1-indexed rank — and `0` when no retrieved ID is relevant. -/
theorem mrr_first_hit_characterization (r : List String) (s : Finset String) :
    ((∀ x ∈ r, x ∉ s) → (compute_retrieval_metrics r s).mrr = 0) ∧
    (∀ (i : ℕ) (hi : i < r.length), r.get ⟨i, hi⟩ ∈ s →
      (∀ (j : ℕ) (hj : j < r.length), j < i → r.get ⟨j, hj⟩ ∉ s) →
      (compute_retrieval_metrics r s).mrr = 1 / ((i : ℝ) + 1)) := by
  constructor
  · intro h
    simp only [compute_retrieval_metrics]
    exact mrrAux_no_hit s r h 0
  · intro i hi hhit hmiss
    simp only [compute_retrieval_metrics]
    rw [mrrAux_first_hit s r 0 i hi hhit hmiss]
    norm_num

/-- Witness for C7's amended theorem: the first hit of `["x", "a"]` in
`{"a"}` sits at 0-indexed position 1, and `mrr = 1/2`. -/
theorem mrr_first_hit_characterization_witness :
    (compute_retrieval_metrics ["x", "a"] ({"a"} : Finset String)).mrr =
      1 / ((1 : ℝ) + 1) := by
  have h := (mrr_first_hit_characterization ["x", "a"] {"a"}).2 1 (by decide)
    (by decide) (by decide)
  exact_mod_cast h

/- ------------------------------------------------------------------
C2 — query-time filter synthesis and the missing extraction fields
------------------------------------------------------------------- -/

/-- C2 (evidence for the code bug): the `QueryExtraction` model has no
`max_total_time_minutes`, `tools`, `methods`, `negative_tools`,
`negative_methods` or `is_healthy` fields, so `_build_filters` returns
`None` on the test input `QueryExtraction(expanded_queries=["q1"],
max_total_time_minutes=30)` (the unknown keyword is dropped by the
model), and, for every extraction whatsoever, every must leaf it
produces is the `rating` range leaf and every must-not leaf a
negative-ingredient text-match leaf — never a time/tools/method/healthy
leaf. -/
theorem build_filters_no_time_tools_method_healthy_leaves :
    build_filters (some { expanded_queries := ["q1"] }) = none ∧
    ∀ qe : Option QueryExtraction,
      ((build_filters qe).all fun f =>
        (f.must.getD []).all isRatingRangeCondition &&
          (f.must_not.getD []).all isNegativeIngredientCondition) = true := by
  refine ⟨rfl, ?_⟩
  intro qe
  cases qe with
  | none => rfl
  | some q =>
    have hmn : ((q.negative_ingredients.getD []).map fun ing =>
        Condition.field "normalized_ingredients" (MatchKind.text ing)).all
          isNegativeIngredientCondition = true := by
      rw [List.all_eq_true]
      intro x hx
      obtain ⟨ing, -, rfl⟩ := List.mem_map.mp hx
      rfl
    simp only [build_filters]
    apply option_all_ite
    rw [Bool.and_eq_true]
    constructor
    · dsimp only
      repeat' split
      all_goals rfl
    · dsimp only
      split
      · rfl
      · exact hmn

/- ------------------------------------------------------------------
C3 — model-call count contract of the multi-query builder
------------------------------------------------------------------- -/

/-- C3: with both stages enabled the builder makes
`1 + len(expanded_queries)` model calls; expansion-only makes 1;
brainstorm-only makes 1 because the extraction is seeded with
`expanded_queries=[user_input]`; both-disabled makes 0 calls and
returns `expanded_queries = [user_input]`. -/
theorem multi_query_build_call_counts (expand_response : QueryExtraction)
    (brainstorm_response : String → String) (user_input : String) :
    (multi_query_build true true expand_response brainstorm_response
      user_input).2 = 1 + expand_response.expanded_queries.length ∧
    (multi_query_build true false expand_response brainstorm_response
      user_input).2 = 1 ∧
    (multi_query_build false true expand_response brainstorm_response
      user_input).2 = 1 ∧
    (multi_query_build false false expand_response brainstorm_response
      user_input).2 = 0 ∧
    (multi_query_build false false expand_response brainstorm_response
      user_input).1.expanded_queries = [user_input] :=
  ⟨rfl, rfl, rfl, rfl, rfl⟩

/- ------------------------------------------------------------------
C4 — ground-truth ingredient leaves
------------------------------------------------------------------- -/

/-- C4: in ground-truth filter synthesis every required ingredient
contributes exactly one must clause — a `should` (OR) of text-match
conditions over its expansion `[lowercased name, ...category
synonyms]` — while every forbidden ingredient turns each of its
expansion candidates into its own independent must-not text-match
leaf. -/
theorem build_ground_truth_filters_ingredient_leaves
    (reqs forbs : List String) (hreqs : reqs ≠ []) (hforbs : forbs ≠ []) :
    build_ground_truth_filters
        [("must_have_ingredients", ExpVal.strs reqs),
          ("must_not_have_ingredients", ExpVal.strs forbs)] =
      some
        { must := some (reqs.map fun req =>
            Condition.shouldFilter ((expand_ingredient req).map fun c =>
              Condition.field "normalized_ingredients" (MatchKind.text c)))
          must_not := some (forbs.flatMap fun forb =>
            (expand_ingredient forb).map fun c =>
              Condition.field "normalized_ingredients" (MatchKind.text c)) } ∧
    (reqs.map fun req =>
      Condition.shouldFilter ((expand_ingredient req).map fun c =>
        Condition.field "normalized_ingredients"
          (MatchKind.text c))).length = reqs.length := by
  refine ⟨?_, List.length_map _ _⟩
  rw [build_ground_truth_filters, if_neg (by simp)]
  simp only [List.flatMap_cons, List.flatMap_nil, entry_conditions_must_have,
    entry_conditions_must_not_have, ExpVal.asStrs, List.append_nil,
    List.nil_append]
  have h1 : (reqs.map fun req =>
      Condition.shouldFilter ((expand_ingredient req).map fun c =>
        Condition.field "normalized_ingredients"
          (MatchKind.text c))).isEmpty = false := by
    cases reqs with
    | nil => exact absurd rfl hreqs
    | cons a t => rfl
  have h2 : (forbs.flatMap fun forb =>
      (expand_ingredient forb).map fun c =>
        Condition.field "normalized_ingredients"
          (MatchKind.text c)).isEmpty = false := by
    cases forbs with
    | nil => exact absurd rfl hforbs
    | cons a t =>
      rw [List.flatMap_cons]
      rw [expand_ingredient]
      rfl
  rw [h1, h2]
  rfl

/-- Witness for C4 at `must_have = ["meat"]`, `must_not = ["quinoa"]`. -/
theorem build_ground_truth_filters_ingredient_leaves_witness :
    build_ground_truth_filters
        [("must_have_ingredients", ExpVal.strs ["meat"]),
          ("must_not_have_ingredients", ExpVal.strs ["quinoa"])] =
      some
        { must := some (["meat"].map fun req =>
            Condition.shouldFilter ((expand_ingredient req).map fun c =>
              Condition.field "normalized_ingredients" (MatchKind.text c)))
          must_not := some (["quinoa"].flatMap fun forb =>
            (expand_ingredient forb).map fun c =>
              Condition.field "normalized_ingredients" (MatchKind.text c)) } :=
  (build_ground_truth_filters_ingredient_leaves ["meat"] ["quinoa"]
    (by decide) (by decide)).1

/- ------------------------------------------------------------------
C9 — inert and unknown keys of the ground-truth builder
------------------------------------------------------------------- -/

/-- C9: the ground-truth builder is total on every input map: the empty
map yields `None`; `tags` and `limit` are recognized but contribute no
leaf; any key outside the handled set contributes no leaf; and a
non-empty map all of whose entries contribute no leaf yields a filter
whose must and must_not groups are both `None` (rather than the whole
result being `None`). -/
theorem build_ground_truth_filters_inert_and_unknown_keys :
    build_ground_truth_filters [] = none ∧
    (∀ v, entry_conditions "tags" v = ([], []) ∧
      entry_conditions "limit" v = ([], [])) ∧
    (∀ (key : String) (v : ExpVal), key ∉ HANDLED_KEYS →
      entry_conditions key v = ([], [])) ∧
    (∀ expected : List (String × ExpVal), expected ≠ [] →
      (∀ kv ∈ expected, entry_conditions kv.1 kv.2 = ([], [])) →
      build_ground_truth_filters expected =
        some { must := none, must_not := none }) := by
  refine ⟨rfl, fun v => ⟨rfl, rfl⟩, ?_, ?_⟩
  · intro key v hk
    simp only [HANDLED_KEYS, List.mem_cons, List.not_mem_nil, or_false,
      not_or] at hk
    obtain ⟨h1, h2, h3, h4, h5, h6, h7, h8, h9, h10, h11⟩ := hk
    rw [entry_conditions, if_neg h1, if_neg h2, if_neg h3, if_neg h4,
      if_neg h5, if_neg h6, if_neg h7, if_neg h8, if_neg h9, if_neg h10,
      if_neg h11]
  · intro expected hne hall
    rw [build_ground_truth_filters,
      if_neg (by simpa [List.isEmpty_iff] using hne)]
    have hmust : expected.flatMap
        (fun kv => (entry_conditions kv.1 kv.2).1) = [] := by
      rw [List.flatMap_eq_nil_iff]
      intro kv hkv
      rw [hall kv hkv]
    have hmust_not : expected.flatMap
        (fun kv => (entry_conditions kv.1 kv.2).2) = [] := by
      rw [List.flatMap_eq_nil_iff]
      intro kv hkv
      rw [hall kv hkv]
    simp only [hmust, hmust_not]
    rfl

/-- Witness for C9 on the non-empty map `{"tags": [...]}`: both groups
come back empty. -/
theorem build_ground_truth_filters_inert_keys_witness :
    build_ground_truth_filters [("tags", ExpVal.strs ["vegetarian"])] =
      some { must := none, must_not := none } := by
  apply build_ground_truth_filters_inert_and_unknown_keys.2.2.2
  · simp
  · intro kv hkv
    rw [List.mem_singleton] at hkv
    subst hkv
    rfl

/- ------------------------------------------------------------------
C8 — simple retrieval validates the vector count
------------------------------------------------------------------- -/

/-- C8: simple retrieval raises a validation error whenever the number
of query vectors differs from one, with a message naming the actual
count received; with exactly one vector it issues the search request
and no validation error. -/
theorem retrieve_results_simple_validation (query_vectors : List (List ℚ))
    (collection_name : String) (k : ℕ) (qe : Option QueryExtraction) :
    (query_vectors.length ≠ 1 →
      retrieve_results_simple query_vectors collection_name k qe =
        Except.error
          ("Simple retrieval supports exactly one query vector, got " ++
            toString query_vectors.length)) ∧
    (query_vectors.length = 1 →
      retrieve_results_simple query_vectors collection_name k qe =
        Except.ok
          { collection_name := collection_name
            query := query_vectors.getD 0 []
            limit := k
            query_filter := build_filters qe }) := by
  constructor
  · intro h
    rw [retrieve_results_simple, if_pos h]
  · intro h
    rw [retrieve_results_simple, if_neg (fun hn => hn h)]

/-- Witness for C8: two query vectors produce the validation error
naming the count, "got 2". -/
theorem retrieve_results_simple_validation_witness :
    retrieve_results_simple [[1], [2]] "recipes" 3 none =
      Except.error "Simple retrieval supports exactly one query vector, got 2" := by
  have h := (retrieve_results_simple_validation [[(1 : ℚ)], [2]] "recipes" 3
    none).1 (by decide)
  rw [h]
  exact congrArg Except.error (by decide)

/- ------------------------------------------------------------------
C10 — RRF retrieval does not validate the vector count
------------------------------------------------------------------- -/

/-- C10: RRF retrieval never raises a validation error — for every list
of query vectors, including the empty list, it returns a request with
exactly one prefetch per input vector, each prefetch carrying the
shared synthesized filter and the requested limit `k`. -/
theorem retrieve_results_rrf_no_validation (query_vectors : List (List ℚ))
    (collection_name : String) (k : ℕ) (qe : Option QueryExtraction) :
    ∃ req : RRFQueryRequest,
      retrieve_results_rrf query_vectors collection_name k qe =
        Except.ok req ∧
      req.prefetch.length = query_vectors.length ∧
      (∀ p ∈ req.prefetch, p.filter = build_filters qe ∧ p.limit = k) ∧
      req.prefetch.map Prefetch.query = query_vectors ∧
      req.limit = k := by
  refine ⟨_, rfl, ?_, ?_, ?_, rfl⟩
  · exact List.length_map _ _
  · intro p hp
    rw [List.mem_map] at hp
    obtain ⟨v, _, rfl⟩ := hp
    exact ⟨rfl, rfl⟩
  · rw [List.map_map]
    exact List.map_id _

/-- Witness for C10 at the empty vector list: no error and zero
prefetches. -/
theorem retrieve_results_rrf_no_validation_witness :
    ∃ req : RRFQueryRequest,
      retrieve_results_rrf ([] : List (List ℚ)) "recipes" 3 none =
        Except.ok req ∧
      req.prefetch.length = 0 := by
  obtain ⟨req, h1, h2, -, -, -⟩ :=
    retrieve_results_rrf_no_validation [] "recipes" 3 none
  exact ⟨req, h1, by simpa using h2⟩

end MealieRag
